import Mathlib

/-!
Verification development for the identity-and-composition-resolution core
(`src/api_support.c` of the flecs entity-component runtime excerpt).

The C code is shallowly embedded: pure helpers become Lean functions, the
world becomes an explicit state record threaded through each operation, and
process aborts (`ecs_abort` / fatal `ecs_assert`) become `Except` errors.
Collaborator functions that live outside the excerpt (table interning,
name lookup, metadata get-or-add, id allocation, role macros) are modelled
from the specification document; each such definition carries a doc comment
saying so.
-/

/-- C strings are modelled as lists of characters (no NUL terminator; the
terminator semantics of `strncmp` and of indexing one-past-the-end are
modelled explicitly where the code relies on them). -/
abbrev CStr := List Char

/- ----------------------------------------------------------------- -/
/- Ids, roles and reserved constants                                  -/
/- ----------------------------------------------------------------- -/

/-- Modelled from the spec: an id is an opaque handle optionally combined
with a Role tag, a bit-flag placed in the high byte of the 64-bit id
(the `ECS_HAS_ROLE` / `ECS_PAIR_OBJECT` macros are not part of the
excerpt). The AND role byte value is fixed arbitrarily. -/
def andRoleByte : Nat := 0x79

/-- Modelled from the spec: the AND role bit pattern (high byte of the id). -/
def ECS_AND : Nat := andRoleByte * 2 ^ 56

/-- Modelled from the spec: test whether an id carries the AND role
(`ECS_HAS_ROLE(e, AND)`). -/
def hasAndRole (e : Nat) : Bool := e / 2 ^ 56 == andRoleByte

/-- Modelled from the spec: extract the referenced object entity from a
role-tagged id (`ECS_PAIR_OBJECT`, the low 32 bits). -/
def pairObject (e : Nat) : Nat := e % 2 ^ 32

/-- Modelled from the spec: the implicit "this" subject placeholder entity. -/
def EcsThis : Nat := 1

/-- Modelled from the spec: upper bound of the reserved low-id range for
component ids (`ECS_HI_COMPONENT_ID`). -/
def ECS_HI_COMPONENT_ID : Nat := 256

/- ----------------------------------------------------------------- -/
/- Canonical (interned) tables                                        -/
/- ----------------------------------------------------------------- -/

/-- Insert an id into a sorted id list, keeping it sorted. -/
def insertSorted (x : Nat) : List Nat → List Nat
  | [] => [x]
  | y :: ys => if x ≤ y then x :: y :: ys else y :: insertSorted x ys

/-- Sort an id list (insertion sort). -/
def sortIds : List Nat → List Nat
  | [] => []
  | x :: xs => insertSorted x (sortIds xs)

/-- Modelled from the spec: the canonical key of a table is the
deduplicated, order-normalized id set of its member list. -/
def canonical (ids : List Nat) : List Nat := sortIds ids.dedup

theorem insertSorted_perm (x : Nat) (l : List Nat) :
    (insertSorted x l).Perm (x :: l) := by
  induction l with
  | nil => simp [insertSorted]
  | cons y ys ih =>
    by_cases h : x ≤ y
    · simp [insertSorted, h]
    · simp only [insertSorted, if_neg h]
      exact (ih.cons y).trans (List.Perm.swap x y ys)

theorem mem_insertSorted {a x : Nat} {l : List Nat} :
    a ∈ insertSorted x l ↔ a = x ∨ a ∈ l := by
  rw [(insertSorted_perm x l).mem_iff, List.mem_cons]

theorem sorted_insertSorted {x : Nat} {l : List Nat}
    (h : l.Sorted (· ≤ ·)) : (insertSorted x l).Sorted (· ≤ ·) := by
  induction l with
  | nil => simp [insertSorted]
  | cons y ys ih =>
    rw [List.sorted_cons] at h
    by_cases hxy : x ≤ y
    · rw [insertSorted, if_pos hxy, List.sorted_cons]
      refine ⟨?_, by rw [List.sorted_cons]; exact h⟩
      intro b hb
      rcases List.mem_cons.1 hb with rfl | hb
      · exact hxy
      · exact le_trans hxy (h.1 b hb)
    · rw [insertSorted, if_neg hxy, List.sorted_cons]
      refine ⟨?_, ih h.2⟩
      intro b hb
      rcases mem_insertSorted.1 hb with rfl | hb
      · exact le_of_not_le hxy
      · exact h.1 b hb

theorem sortIds_perm (l : List Nat) : (sortIds l).Perm l := by
  induction l with
  | nil => simp [sortIds]
  | cons x xs ih => exact (insertSorted_perm x (sortIds xs)).trans (ih.cons x)

theorem sortIds_sorted (l : List Nat) : (sortIds l).Sorted (· ≤ ·) := by
  induction l with
  | nil => simp [sortIds]
  | cons x xs ih => exact sorted_insertSorted ih

theorem sortIds_eq_of_perm {l₁ l₂ : List Nat} (h : l₁.Perm l₂) :
    sortIds l₁ = sortIds l₂ :=
  List.eq_of_perm_of_sorted
    ((sortIds_perm l₁).trans (h.trans (sortIds_perm l₂).symm))
    (sortIds_sorted l₁) (sortIds_sorted l₂)

theorem canonical_eq_of_mem_iff {l₁ l₂ : List Nat}
    (h : ∀ x, x ∈ l₁ ↔ x ∈ l₂) : canonical l₁ = canonical l₂ := by
  refine sortIds_eq_of_perm ?_
  exact (List.perm_ext_iff_of_nodup (List.nodup_dedup l₁)
    (List.nodup_dedup l₂)).2 (by simpa [List.mem_dedup] using h)

theorem mem_canonical {x : Nat} {l : List Nat} :
    x ∈ canonical l ↔ x ∈ l := by
  rw [canonical, (sortIds_perm l.dedup).mem_iff, List.mem_dedup]

/- ----------------------------------------------------------------- -/
/- Data model                                                         -/
/- ----------------------------------------------------------------- -/

/-- The `EcsName` record: display name plus the symbol of record. -/
structure EcsName where
  value : CStr
  symbol : Option CStr
deriving DecidableEq

/-- The `EcsComponent` record: size and alignment metadata. -/
structure EcsComponent where
  size : Nat
  alignment : Nat
deriving DecidableEq

/-- The `EcsType` record: the raw and the normalized table. A table is
identified by its canonical member list (structural interning makes the
canonical id set the identity of a table). -/
structure EcsType where
  type : List Nat
  normalized : List Nat
deriving DecidableEq

/-- Term operators (`EcsAnd` is the only one this core accepts). -/
inductive TermOper where
  | EcsAnd
  | EcsOr
  | EcsNot
deriving DecidableEq

/-- Term source kinds (`EcsFromOwned` is the only one this core accepts). -/
inductive FromKind where
  | EcsFromOwned
  | EcsFromShared
  | EcsFromEmpty
deriving DecidableEq

/-- One structured, already-resolved composition term as delivered by the
external expression parser (`ecs_term_t`, restricted to the fields this
core reads; `args0` is `term->args[0].entity`, the subject). -/
structure Term where
  name : Option CStr
  oper : TermOper
  from_kind : FromKind
  args0 : Nat
  id : Nat
  role : Nat
deriving DecidableEq

/-- A parser diagnostic as emitted by `ecs_parser_error`: the name, the
full source text, the column, and the message. -/
structure Diag where
  name : Option CStr
  sig : CStr
  column : Int
  msg : String
deriving DecidableEq

/-- Fatal conditions: `ecs_abort` reasons and fatal assertions, each
citing what the C code cites. -/
inductive EcsError where
  | inconsistentName (name : CStr)
  | invalidComponentSize (name : Option CStr)
  | alreadyDefined (name : Option CStr)
  | invalidWhileIterating
  | invalidParameter
deriving DecidableEq

/-- The world: the process-wide registry state this core reads and
mutates. Collaborator-owned parts (entity liveness, name records,
component and type metadata, scope, staging flags, counters) are modelled
as explicit fields per the spec section on the world/registry substrate. -/
structure World where
  entities : List Nat
  names : Nat → Option EcsName
  components : Nat → Option EcsComponent
  types : Nat → Option EcsType
  entityType : Nat → List Nat
  parents : Nat → Option Nat
  typeHandles : List Nat → Option Nat
  scope : Nat
  is_readonly : Bool
  stageCount : Nat
  lastComponentId : Nat
  nextEntityId : Nat
  namePrefixStr : Option CStr

/-- Pointwise update of a keyed partial map. -/
def updFun {κ α : Type} [DecidableEq κ] (f : κ → Option α) (k : κ) (v : α) :
    κ → Option α :=
  fun x => if x = k then some v else f x

/-- Mark an entity as alive in the world (idempotent). -/
def addEntity (l : List Nat) (e : Nat) : List Nat :=
  if e ∈ l then l else e :: l

/- ----------------------------------------------------------------- -/
/- World/registry substrate (collaborators outside the excerpt)       -/
/- ----------------------------------------------------------------- -/

/-- `ecs_exists`: whether an id is a known entity of this world. -/
def ecs_exists (w : World) (e : Nat) : Bool := e ∈ w.entities

/-- `ecs_get_name`: the stored display name of an entity, if any
(the `value` field of its `EcsName` record). -/
def ecs_get_name (w : World) (e : Nat) : Option CStr :=
  Option.map EcsName.value (w.names e)

/-- Modelled from the spec: `ecs_lookup` (not in the excerpt) looks an
entity up by its display name; the sentinel 0 means not found. -/
def ecs_lookup (w : World) (name : CStr) : Nat :=
  match w.entities.find? (fun x => ecs_get_name w x == some name) with
  | some x => x
  | none => 0

/-- Modelled from the spec: `ecs_add_pair(world, e, EcsChildOf, scope)`
(not in the excerpt) attaches `e` to `scope` as its parent, creating the
entity if needed (lazy parent assignment). -/
def ecs_add_pair_childof (w : World) (e : Nat) (scope : Nat) : World :=
  { w with parents := updFun w.parents e scope,
           entities := addEntity w.entities e }

/-- Modelled from the spec: `ecs_new(world, 0)` (not in the excerpt)
allocates a fresh empty entity. -/
def ecs_new (w : World) : Nat × World :=
  (w.nextEntityId,
    { w with nextEntityId := w.nextEntityId + 1,
             entities := addEntity w.entities w.nextEntityId })

/-- Modelled from the spec: `ecs_new_component_id` (not in the excerpt)
allocates from the reserved low-id range, advancing the high-water mark;
once the range is exhausted it falls back to ordinary entity allocation. -/
def ecs_new_component_id (w : World) : Nat × World :=
  if w.lastComponentId ≥ ECS_HI_COMPONENT_ID then ecs_new w
  else
    (w.lastComponentId, { w with lastComponentId := w.lastComponentId + 1 })

/- ----------------------------------------------------------------- -/
/- Term Validator (`parse_type_action`)                               -/
/- ----------------------------------------------------------------- -/

/-- `parse_type_action`: validates one parsed term and appends
`term->id | term->role` to the accumulator. `ecs_term_resolve` and
`ecs_term_set_legacy` are modelled from the spec as the identity (the
parser delivers already-resolved structured terms); `ecs_term_free` frees
transient memory and has no observable effect here. An error result
carries the diagnostic emitted by `ecs_parser_error` and leaves the
accumulator untouched. -/
def parse_type_action (name : Option CStr) (sig : CStr) (column : Int)
    (term : Term) (array : List Nat) : Except Diag (List Nat) :=
  if term.name.isSome then
    .error ⟨name, sig, column,
      "column names not supported in type expression"⟩
  else if term.oper ≠ TermOper.EcsAnd then
    .error ⟨name, sig, column,
      "operator other than AND not supported in type expression"⟩
  else if term.args0 = 0 then
    -- Empty term
    .ok array
  else if term.from_kind ≠ FromKind.EcsFromOwned then
    .error ⟨name, sig, column,
      "source modifiers not supported for type expressions"⟩
  else if term.args0 ≠ EcsThis then
    .error ⟨name, sig, column,
      "subject other than this not supported in type expression"⟩
  else
    .ok (array ++ [Nat.lor term.id term.role])

/-- Modelled from the spec: the external parser invokes the callback once
per term and aborts its scan when the callback signals failure; the
accumulator keeps whatever was appended before the failure (the caller in
the excerpt ignores the parse return value). The column records the term
position. -/
def parseLoop (name : Option CStr) (col : Int) (acc : List Nat) :
    List Term → List Nat
  | [] => acc
  | t :: rest =>
    match parse_type_action name [] col t acc with
    | .ok acc2 => parseLoop name (col + 1) acc2 rest
    | .error _ => acc

/-- Modelled from the spec: `ecs_parse_expr` over a pre-parsed term
stream (expressions are consumed as structured term sequences; the
tokenizer is an external collaborator). -/
def ecs_parse_expr (name : Option CStr) (terms : List Term) : List Nat :=
  parseLoop name 0 [] terms

/- ----------------------------------------------------------------- -/
/- Table Resolver and Type Normalizer                                 -/
/- ----------------------------------------------------------------- -/

/-- Modelled from the spec: `ecs_table_find_or_create` (not in the
excerpt) interns a table structurally: the returned table is identified
by the canonical (deduplicated, order-normalized) id set of the input.
The table handle is modelled as that canonical member list, which is the
identity of the interned table. -/
def ecs_table_find_or_create (entities : List Nat) : List Nat :=
  canonical entities

/-- `table_from_vec`: resolve an id list to its canonical table. -/
def table_from_vec (vec : List Nat) : List Nat :=
  ecs_table_find_or_create vec

/-- Modelled from the spec: `ecs_table_traverse_add` (not in the excerpt)
layers additional ids on top of a table via the same canonicalization,
yielding the table of the combined member set. -/
def ecs_table_traverse_add (table : List Nat) (to_add : List Nat) :
    List Nat :=
  canonical (table ++ to_add)

/-- The expansion loop of `type_from_vec`: for each entry carrying the
AND role, fetch the referenced entity's stored `EcsType` (its absence is
the fatal `ECS_INVALID_PARAMETER` assertion) and append that type's full
`normalized` member sequence. -/
def collectAndMembers (w : World) : List Nat → Except EcsError (List Nat)
  | [] => .ok []
  | e :: rest =>
    if hasAndRole e then
      match w.types (pairObject e) with
      | none => .error .invalidParameter
      | some tr =>
        match collectAndMembers w rest with
        | .ok tail => .ok (tr.normalized ++ tail)
        | .error err => .error err
    else collectAndMembers w rest

/-- `type_from_vec`: resolve the raw table, then build the normalized
table; when no AND member contributed anything the normalized table is
the raw table itself (the C code checks whether the auxiliary vector was
ever allocated). -/
def type_from_vec (w : World) (vec : List Nat) : Except EcsError EcsType :=
  let table := table_from_vec vec
  match collectAndMembers w vec with
  | .error err => .error err
  | .ok normalized =>
    if normalized = [] then .ok ⟨table, table⟩
    else .ok ⟨table, ecs_table_traverse_add table normalized⟩

/-- `type_from_expr`: parse the expression (the parse status is ignored,
as in the C code) and normalize the accumulated vector; a missing
expression yields the empty type pair. -/
def type_from_expr (w : World) (name : Option CStr)
    (expr : Option (List Term)) : Except EcsError EcsType :=
  match expr with
  | some terms => type_from_vec w (ecs_parse_expr name terms)
  | none => .ok ⟨[], []⟩

/- ----------------------------------------------------------------- -/
/- Symbol Resolver                                                    -/
/- ----------------------------------------------------------------- -/

/-- C `strncmp(a, b, n) == 0`: the first `n` characters agree, where a
string that ends early contributes its NUL terminator (so two strings
that both end before `n` are equal, and one ending early differs from
one that continues). -/
def strncmpEq : CStr → CStr → Nat → Bool
  | _, _, 0 => true
  | [], [], _ + 1 => true
  | [], _ :: _, _ + 1 => false
  | _ :: _, [], _ + 1 => false
  | a :: as, b :: bs, n + 1 => a == b && strncmpEq as bs n

/-- C indexing `s[i]`: reading one past the last character yields the NUL
terminator, modelled as the character of code 0. -/
def charAt (s : CStr) (i : Nat) : Char := s.getD i (Char.ofNat 0)

/-- `ecs_name_from_symbol`: strip the configured name prefix when the
name starts with it and the following character is uppercase or an
underscore (also dropping that underscore); otherwise return the name
unchanged. The C null-guard on `type_name` is handled by the caller. -/
def ecs_name_from_symbol (w : World) (type_name : CStr) : CStr :=
  match w.namePrefixStr with
  | none => type_name
  | some p =>
    let len := p.length
    if strncmpEq type_name p len = true ∧
        ((charAt type_name len).isUpper = true ∨ charAt type_name len = '_')
    then
      if charAt type_name len = '_' then type_name.drop (len + 1)
      else type_name.drop len
    else type_name

/-- `ecs_set_symbol`: no-op on a missing name; otherwise store the
canonicalized name as the display name and a copy of the original name
as the symbol of record (`ecs_get_mut(EcsName)` creates the record and
the entity when absent; the old symbol string is freed). -/
def ecs_set_symbol (w : World) (e : Nat) (name : Option CStr) : World :=
  match name with
  | none => w
  | some n =>
    let e_name := ecs_name_from_symbol w n
    { w with names := updFun w.names e ⟨e_name, some n⟩,
             entities := addEntity w.entities e }

/- ----------------------------------------------------------------- -/
/- Identifier Resolver (`ecs_lookup_w_id`)                            -/
/- ----------------------------------------------------------------- -/

/-- `ecs_lookup_w_id`: resolve an optional explicit handle and/or name,
with lazy scope attachment, the inconsistent-name abort, lazy name
assignment, and name lookup for the handle-less case. -/
def ecs_lookup_w_id (w : World) (e : Nat) (name : Option CStr) :
    Except EcsError (Nat × World) :=
  if e ≠ 0 then
    /- If an explicit id was provided but does not exist in the world,
       attach it to the current scope, if any. -/
    let w1 := if ecs_exists w e = false ∧ w.scope ≠ 0 then
        ecs_add_pair_childof w e w.scope
      else w
    match name with
    | some n =>
      -- Make sure the name is the same
      match ecs_get_name w1 e with
      | some existing =>
        if existing ≠ n then .error (.inconsistentName n)
        else .ok (e, w1)
      | none => .ok (e, ecs_set_symbol w1 e (some n))
    | none => .ok (e, w1)
  else
    match name with
    | none =>
      -- Neither an id nor a name: return 0
      .ok (0, w)
    | some n => .ok (ecs_lookup w n, w)

/- ----------------------------------------------------------------- -/
/- Entity Registrar (`ecs_new_entity`), used by the Type Registrar     -/
/- ----------------------------------------------------------------- -/

/-- Modelled from the spec: `ecs_add_type` (not in the excerpt) unions a
type's members onto the entity's current composition, through the same
table canonicalization. -/
def ecs_add_type (w : World) (e : Nat) (t : List Nat) : World :=
  { w with entityType :=
      fun x => if x = e then canonical (w.entityType e ++ t)
               else w.entityType x,
           entities := addEntity w.entities e }

/-- `ecs_new_entity`: create-or-get an entity by handle/name, then union
the normalized form of the expression onto its composition. The
world-magic staging assertion is outside the modelled state. -/
def ecs_new_entity (w : World) (e : Nat) (name : Option CStr)
    (expr : Option (List Term)) : Except EcsError (Nat × World) :=
  match ecs_lookup_w_id w e name with
  | .error err => .error err
  | .ok (r0, w1) =>
    let (result, w2) :=
      if r0 = 0 then
        let p := ecs_new w1
        (p.1, ecs_set_symbol p.2 p.1 name)
      else (r0, w1)
    match type_from_expr w2 name expr with
    | .error err => .error err
    | .ok tp => .ok (result, ecs_add_type w2 result tp.normalized)

/- ----------------------------------------------------------------- -/
/- Component Registrar (`ecs_new_component`)                          -/
/- ----------------------------------------------------------------- -/

/-- The high-water-mark step of `ecs_new_component`: an explicitly
supplied id strictly above the current mark and inside the reserved
low-id range advances the mark to one past it. -/
def markUpdate (e : Nat) (w : World) : World :=
  if w.lastComponentId < e ∧ e < ECS_HI_COMPONENT_ID then
    { w with lastComponentId := e + 1 }
  else w

/-- The tail of the `ecs_new_component` body once the identity is
resolved (`result`, with `found` recording whether a fresh id was
allocated): assign the symbol to a fresh id, then get-or-add the
`EcsComponent` record, storing `(size, alignment)` on first creation and
aborting with `ECS_INVALID_COMPONENT_SIZE` (citing the name) when a
stored value differs; finally apply the high-water-mark step.
`ecs_modified` emits a change notification with no registry effect. -/
def ecs_new_component_finish (w : World) (e : Nat) (name : Option CStr)
    (size alignment result : Nat) (found : Bool) :
    Except EcsError (Nat × World) :=
  let w3 := if found then ecs_set_symbol w result name else w
  match w3.components result with
  | none =>
    let w4 := { w3 with
      components := updFun w3.components result ⟨size, alignment⟩,
      entities := addEntity w3.entities result }
    .ok (result, markUpdate e w4)
  | some ptr =>
    if ptr.size ≠ size then .error (.invalidComponentSize name)
    else if ptr.alignment ≠ alignment then
      .error (.invalidComponentSize name)
    else .ok (result, markUpdate e w3)

/-- The body of `ecs_new_component` between the read-only prologue and
epilogue: resolve the identity, allocate a fresh component id when not
found, and run the registration tail. -/
def ecs_new_component_core (w : World) (e : Nat) (name : Option CStr)
    (size alignment : Nat) : Except EcsError (Nat × World) :=
  match ecs_lookup_w_id w e name with
  | .error err => .error err
  | .ok (r0, w1) =>
    if r0 = 0 then
      let p := ecs_new_component_id w1
      ecs_new_component_finish p.2 e name size alignment p.1 true
    else ecs_new_component_finish w1 e name size alignment r0 false

/-- `ecs_new_component`: when the world is in read-only/deferred mode,
more than one active stage is the fatal `ECS_INVALID_WHILE_ITERATING`
assertion; otherwise the read-only flag is suspended around the body and
restored before returning. -/
def ecs_new_component (w : World) (e : Nat) (name : Option CStr)
    (size alignment : Nat) : Except EcsError (Nat × World) :=
  let is_readonly := w.is_readonly
  if is_readonly = true ∧ w.stageCount > 1 then .error .invalidWhileIterating
  else
    let w1 := if is_readonly then { w with is_readonly := false } else w
    match ecs_new_component_core w1 e name size alignment with
    | .error err => .error err
    | .ok (r, w2) =>
      .ok (r, if is_readonly then { w2 with is_readonly := true } else w2)

/- ----------------------------------------------------------------- -/
/- Type Registrar (`ecs_new_type`)                                    -/
/- ----------------------------------------------------------------- -/

/-- `ecs_new_type`: create-or-get a type entity, compute the parsed
`(type, normalized)` pair, store it on first creation, abort with
`ECS_ALREADY_DEFINED` (citing the name) when either stored field
differs, and register the raw table in the type-handle map. -/
def ecs_new_type (w : World) (e : Nat) (name : Option CStr)
    (expr : Option (List Term)) : Except EcsError (Nat × World) :=
  match ecs_lookup_w_id w e name with
  | .error err => .error err
  | .ok (r0, w1) =>
    match (if r0 = 0 then ecs_new_entity w1 0 name none
           else .ok (r0, w1)) with
    | .error err => .error err
    | .ok (result, w2) =>
      match type_from_expr w2 name expr with
      | .error err => .error err
      | .ok type_parsed =>
        match w2.types result with
        | none =>
          let w3 := { w2 with
            types := updFun w2.types result type_parsed,
            entities := addEntity w2.entities result }
          .ok (result,
            { w3 with typeHandles :=
                updFun w3.typeHandles type_parsed.type result })
        | some t =>
          if t.type ≠ type_parsed.type then .error (.alreadyDefined name)
          else if t.normalized ≠ type_parsed.normalized then
            .error (.alreadyDefined name)
          else
            .ok (result,
              { w2 with typeHandles :=
                  updFun w2.typeHandles type_parsed.type result })

/- ----------------------------------------------------------------- -/
/- Concrete worlds and result projections used by witnesses           -/
/- ----------------------------------------------------------------- -/

/-- A fresh world: nothing registered, no scope, no prefix, one stage. -/
def emptyWorld : World :=
  { entities := [], names := fun _ => none, components := fun _ => none,
    types := fun _ => none, entityType := fun _ => [],
    parents := fun _ => none, typeHandles := fun _ => none, scope := 0,
    is_readonly := false, stageCount := 1, lastComponentId := 1,
    nextEntityId := 1000, namePrefixStr := none }

/-- The handle of a registrar result, when it did not abort. -/
def resultHandle (r : Except EcsError (Nat × World)) : Option Nat :=
  match r with
  | .ok (h, _) => some h
  | .error _ => none

/-- The component-id high-water mark after a registrar call. -/
def lastAfter (r : Except EcsError (Nat × World)) : Option Nat :=
  match r with
  | .ok (_, w) => some w.lastComponentId
  | .error _ => none

/-- The stored component record of an entity after a registrar call. -/
def componentAfter (r : Except EcsError (Nat × World)) (e : Nat) :
    Option EcsComponent :=
  match r with
  | .ok (_, w) => w.components e
  | .error _ => none

/- ----------------------------------------------------------------- -/
/- Helper lemmas on the C string primitives                           -/
/- ----------------------------------------------------------------- -/

theorem strncmpEq_iff_append (p : CStr) :
    ∀ n : CStr, strncmpEq n p p.length = true ↔ ∃ r, n = p ++ r := by
  induction p with
  | nil =>
    intro n
    simp [strncmpEq]
  | cons b bs ih =>
    intro n
    cases n with
    | nil => simp [strncmpEq]
    | cons a as =>
      simp only [List.length_cons, strncmpEq, Bool.and_eq_true, beq_iff_eq,
        ih as, List.cons_append, List.cons.injEq]
      constructor
      · rintro ⟨rfl, r, rfl⟩
        exact ⟨r, rfl, rfl⟩
      · rintro ⟨r, rfl, rfl⟩
        exact ⟨rfl, r, rfl⟩

theorem charAt_append (p : CStr) (c : Char) (r : CStr) :
    charAt (p ++ c :: r) p.length = c := by
  induction p with
  | nil => simp [charAt]
  | cons a as ih => simpa [charAt, List.getD] using ih

theorem charAt_past_end (p : CStr) : charAt p p.length = Char.ofNat 0 := by
  induction p with
  | nil => simp [charAt]
  | cons a as ih => simp [charAt, List.getD] at ih ⊢

theorem drop_append_cons (p : CStr) (c : Char) (r : CStr) :
    (p ++ c :: r).drop p.length = c :: r := by
  induction p with
  | nil => simp
  | cons a as ih => simp only [List.cons_append, List.length_cons,
      List.drop_succ_cons]; exact ih

theorem drop_append_cons_succ (p : CStr) (c : Char) (r : CStr) :
    (p ++ c :: r).drop (p.length + 1) = r := by
  induction p with
  | nil => simp
  | cons a as ih => simp only [List.cons_append, List.length_cons,
      List.drop_succ_cons]; exact ih

/- ----------------------------------------------------------------- -/
/- Claim C1                                                           -/
/- ----------------------------------------------------------------- -/

/-- Claim C1: for every two id lists whose element sets are equal
(regardless of order and of duplicates), resolving each through the Table
Resolver (`table_from_vec`) returns the identical canonical table
handle. -/
theorem C1_table_interning (v1 v2 : List Nat)
    (h : ∀ x, x ∈ v1 ↔ x ∈ v2) :
    table_from_vec v1 = table_from_vec v2 :=
  canonical_eq_of_mem_iff h

/-- Witness for C1: two set-equal lists with different order and a
duplicate resolve to the same table. -/
theorem C1_table_interning_witness :
    (∀ x, x ∈ [3, 1, 3, 2] ↔ x ∈ [2, 1, 3]) ∧
      table_from_vec [3, 1, 3, 2] = table_from_vec [2, 1, 3] :=
  ⟨by intro x; simp [List.mem_cons]; tauto,
    C1_table_interning [3, 1, 3, 2] [2, 1, 3]
      (by intro x; simp [List.mem_cons]; tauto)⟩

/- ----------------------------------------------------------------- -/
/- Claim C7                                                           -/
/- ----------------------------------------------------------------- -/

/-- Claim C7: `ecs_name_from_symbol` strips a configured prefix exactly
when the name starts with the prefix and the following character is
uppercase or an underscore (also dropping that underscore), and returns
the name unchanged otherwise (also when no prefix is configured, when
the name is the bare prefix, or when the name does not start with the
prefix); and `ecs_set_symbol` stores the canonicalized form as the
display name while the stored symbol of record equals the original
unstripped input. -/
theorem C7_symbol_resolver :
    (∀ w n, w.namePrefixStr = none → ecs_name_from_symbol w n = n) ∧
    (∀ w p rest, w.namePrefixStr = some p →
      ecs_name_from_symbol w (p ++ '_' :: rest) = rest) ∧
    (∀ w p c rest, w.namePrefixStr = some p → c.isUpper = true →
      ecs_name_from_symbol w (p ++ c :: rest) = c :: rest) ∧
    (∀ w p c rest, w.namePrefixStr = some p → c.isUpper = false →
      c ≠ '_' → ecs_name_from_symbol w (p ++ c :: rest) = p ++ c :: rest) ∧
    (∀ w p, w.namePrefixStr = some p → ecs_name_from_symbol w p = p) ∧
    (∀ w p n, w.namePrefixStr = some p → (∀ r, n ≠ p ++ r) →
      ecs_name_from_symbol w n = n) ∧
    (∀ w e n, (ecs_set_symbol w e (some n)).names e =
      some ⟨ecs_name_from_symbol w n, some n⟩) := by
  refine ⟨?_, ?_, ?_, ?_, ?_, ?_, ?_⟩
  · intro w n hw
    simp [ecs_name_from_symbol, hw]
  · intro w p rest hw
    have hs : strncmpEq (p ++ '_' :: rest) p p.length = true :=
      (strncmpEq_iff_append p _).2 ⟨'_' :: rest, rfl⟩
    have hc := charAt_append p '_' rest
    simp only [ecs_name_from_symbol, hw]
    rw [if_pos ⟨hs, Or.inr hc⟩, if_pos hc, drop_append_cons_succ]
  · intro w p c rest hw hupper
    have hs : strncmpEq (p ++ c :: rest) p p.length = true :=
      (strncmpEq_iff_append p _).2 ⟨c :: rest, rfl⟩
    have hc := charAt_append p c rest
    have hne : c ≠ '_' := by
      intro h
      rw [h] at hupper
      exact absurd hupper (by decide)
    simp only [ecs_name_from_symbol, hw]
    rw [hc, if_pos ⟨hs, Or.inl hupper⟩, if_neg hne, drop_append_cons]
  · intro w p c rest hw hupper hne
    have hc := charAt_append p c rest
    simp only [ecs_name_from_symbol, hw]
    rw [if_neg]
    rintro ⟨-, hor⟩
    rcases hor with h | h
    · rw [hc] at h
      rw [h] at hupper
      exact absurd hupper (by decide)
    · exact hne (hc ▸ h)
  · intro w p hw
    have hc := charAt_past_end p
    simp only [ecs_name_from_symbol, hw]
    rw [if_neg]
    rintro ⟨-, hor⟩
    rcases hor with h | h
    · rw [hc] at h
      exact absurd h (by decide)
    · rw [hc] at h
      exact absurd h (by decide)
  · intro w p n hw hnp
    simp only [ecs_name_from_symbol, hw]
    rw [if_neg]
    rintro ⟨hs, -⟩
    rcases (strncmpEq_iff_append p n).1 hs with ⟨r, hr⟩
    exact hnp r hr
  · intro w e n
    simp [ecs_set_symbol, updFun]

/-- A world whose configured naming prefix is "Ecs". -/
def wPfx : World := { emptyWorld with namePrefixStr := some "Ecs".toList }

/-- Witness for C7 at the spec examples with prefix "Ecs": "EcsFoo"
canonicalizes to "Foo", "Ecs_foo" to "foo", "foo" stays unchanged, and
the stored symbol of record is the original input. -/
theorem C7_symbol_resolver_witness :
    ecs_name_from_symbol wPfx "EcsFoo".toList = "Foo".toList ∧
    ecs_name_from_symbol wPfx "Ecs_foo".toList = "foo".toList ∧
    ecs_name_from_symbol wPfx "foo".toList = "foo".toList ∧
    (ecs_set_symbol wPfx 4 (some "EcsFoo".toList)).names 4 =
      some ⟨"Foo".toList, some "EcsFoo".toList⟩ := by
  have h := C7_symbol_resolver
  have h1 : "EcsFoo".toList = "Ecs".toList ++ 'F' :: "oo".toList := by decide
  have h2 : "Ecs_foo".toList = "Ecs".toList ++ '_' :: "foo".toList := by
    decide
  refine ⟨?_, ?_, ?_, ?_⟩
  · rw [h1]
    exact h.2.2.1 wPfx "Ecs".toList 'F' "oo".toList rfl (by decide)
  · rw [h2]
    exact h.2.1 wPfx "Ecs".toList "foo".toList rfl
  · refine h.2.2.2.2.2.1 wPfx "Ecs".toList "foo".toList rfl ?_
    intro r hr
    have : charAt "foo".toList 0 = charAt ("Ecs".toList ++ r) 0 := by
      rw [hr]
    rw [show ("Ecs".toList ++ r) = 'E' :: ("cs".toList ++ r) from rfl] at this
    simp [charAt, List.getD] at this
  · have hv := h.2.2.2.2.2.2 wPfx 4 "EcsFoo".toList
    rw [hv, h1, h.2.2.1 wPfx "Ecs".toList 'F' "oo".toList rfl (by decide)]
    decide

/- ----------------------------------------------------------------- -/
/- Claim C6                                                           -/
/- ----------------------------------------------------------------- -/

/-- The world carried by a resolver result, with a default for the
abort case. -/
def worldAfter (r : Except EcsError (Nat × World)) (d : World) : World :=
  match r with
  | .ok (_, w) => w
  | .error _ => d

/-- Scope attachment does not touch name records. -/
theorem ecs_get_name_add_pair (w : World) (e2 s e : Nat) :
    ecs_get_name (ecs_add_pair_childof w e2 s) e = ecs_get_name w e := rfl

/-- Claim C6: `ecs_lookup_w_id` attaches a given-but-unknown handle to
the active scope before anything else; aborts with "inconsistent name"
(citing the given name) when the handle already has a different stored
name; assigns the name when the handle has none; returns the empty
sentinel 0 when neither handle nor name is given; and looks up by name
when only a name is given. -/
theorem C6_identifier_resolver :
    (∀ w e name r w2, e ≠ 0 → ecs_exists w e = false → w.scope ≠ 0 →
      ecs_lookup_w_id w e name = .ok (r, w2) →
      w2.parents e = some w.scope) ∧
    (∀ w e n existing, e ≠ 0 → ecs_get_name w e = some existing →
      existing ≠ n →
      ecs_lookup_w_id w e (some n) = .error (.inconsistentName n)) ∧
    (∀ w e n, e ≠ 0 → ecs_get_name w e = none →
      ∃ w2, ecs_lookup_w_id w e (some n) = .ok (e, w2) ∧
        w2.names e = some ⟨ecs_name_from_symbol w n, some n⟩) ∧
    (∀ w, ecs_lookup_w_id w 0 none = .ok (0, w)) ∧
    (∀ w n, ecs_lookup_w_id w 0 (some n) = .ok (ecs_lookup w n, w)) := by
  refine ⟨?_, ?_, ?_, ?_, ?_⟩
  · intro w e name r w2 he hex hsc hok
    simp only [ecs_lookup_w_id, if_pos he, if_pos (And.intro hex hsc)]
      at hok
    split at hok
    · split at hok
      · split at hok
        · cases hok
        · cases hok
          simp [ecs_add_pair_childof, updFun]
      · cases hok
        simp [ecs_set_symbol, ecs_add_pair_childof, updFun]
    · cases hok
      simp [ecs_add_pair_childof, updFun]
  · intro w e n existing he hgn hne
    simp only [ecs_lookup_w_id, if_pos he]
    by_cases hcond : ecs_exists w e = false ∧ w.scope ≠ 0
    · rw [if_pos hcond]
      split
      next ex heq =>
        rw [ecs_get_name_add_pair, hgn] at heq
        cases heq
        rw [if_pos hne]
      next heq =>
        rw [ecs_get_name_add_pair, hgn] at heq
        cases heq
    · rw [if_neg hcond]
      split
      next ex heq =>
        rw [hgn] at heq
        cases heq
        rw [if_pos hne]
      next heq =>
        rw [hgn] at heq
        cases heq
  · intro w e n he hgn
    simp only [ecs_lookup_w_id, if_pos he]
    by_cases hcond : ecs_exists w e = false ∧ w.scope ≠ 0
    · rw [if_pos hcond]
      split
      next ex heq =>
        rw [ecs_get_name_add_pair, hgn] at heq
        cases heq
      next heq =>
        exact ⟨_, rfl, by
          simp [ecs_set_symbol, ecs_add_pair_childof,
            ecs_name_from_symbol, updFun]⟩
    · rw [if_neg hcond]
      split
      next ex heq =>
        rw [hgn] at heq
        cases heq
      next heq =>
        exact ⟨_, rfl, by simp [ecs_set_symbol, updFun]⟩
  · intro w
    simp [ecs_lookup_w_id]
  · intro w n
    simp [ecs_lookup_w_id]

/-- A world with an active scope 9 and nothing registered. -/
def w6a : World := { emptyWorld with scope := 9 }

/-- A world in which entity 5 is alive and named "A". -/
def w6b : World :=
  { emptyWorld with
    entities := [5],
    names := updFun emptyWorld.names 5 ⟨"A".toList, some "A".toList⟩ }

/-- Witness for C6: scope attachment for an unknown handle, the
inconsistent-name abort, lazy name assignment, the 0 sentinel, and
lookup by name, each at a concrete world. -/
theorem C6_identifier_resolver_witness :
    (worldAfter (ecs_lookup_w_id w6a 5 none) emptyWorld).parents 5 =
      some 9 ∧
    ecs_lookup_w_id w6b 5 (some "B".toList) =
      .error (.inconsistentName "B".toList) ∧
    (worldAfter (ecs_lookup_w_id w6a 5 (some "N".toList))
        emptyWorld).names 5 = some ⟨"N".toList, some "N".toList⟩ ∧
    ecs_lookup_w_id emptyWorld 0 none = .ok (0, emptyWorld) ∧
    ecs_lookup_w_id w6b 0 (some "A".toList) =
      .ok (ecs_lookup w6b "A".toList, w6b) := by
  have h := C6_identifier_resolver
  refine ⟨?_, ?_, ?_, h.2.2.2.1 emptyWorld, h.2.2.2.2 w6b "A".toList⟩
  · exact h.1 w6a 5 none 5
      (worldAfter (ecs_lookup_w_id w6a 5 none) emptyWorld)
      (by decide) (by decide) (by decide) (by rfl)
  · exact h.2.1 w6b 5 "B".toList "A".toList (by decide) (by decide)
      (by decide)
  · obtain ⟨w2, heq, hn⟩ := h.2.2.1 w6a 5 "N".toList (by decide)
      (by decide)
    have hw : worldAfter (ecs_lookup_w_id w6a 5 (some "N".toList))
        emptyWorld = w2 := by
      rw [heq]
      rfl
    rw [hw, hn]
    rfl

/- ----------------------------------------------------------------- -/
/- Claims C5 and C10                                                  -/
/- ----------------------------------------------------------------- -/

/-- The location cited by a failed validation, if any. -/
def diagLoc (r : Except Diag (List Nat)) :
    Option (Option CStr × CStr × Int) :=
  match r with
  | .error d => some (d.name, d.sig, d.column)
  | .ok _ => none

/-- Counterexample for C5: a term whose resolved subject id is 0 but
whose source-kind is not "owned" is accepted silently (no diagnostic,
no append), because the empty-term check runs before the source-kind
rejection; the claim requires a diagnostic and failure for every
non-owned source-kind. -/
theorem C5_term_validator_counterexample :
    Term.from_kind ⟨none, .EcsAnd, .EcsFromShared, 0, 7, 0⟩ ≠
      FromKind.EcsFromOwned ∧
    Term.args0 ⟨none, .EcsAnd, .EcsFromShared, 0, 7, 0⟩ = 0 ∧
    parse_type_action none [] 0 ⟨none, .EcsAnd, .EcsFromShared, 0, 7, 0⟩
      [] = .ok [] := by
  refine ⟨by decide, rfl, ?_⟩
  rfl

/-- Claim C5 (amended): a term that carries a column name, or whose
operator is not AND, is always rejected with a diagnostic citing
(name, source text, column) and no append; a term whose source-kind is
not "owned" or whose subject is not the implicit "this" is so rejected
provided its resolved subject id is nonzero (a zero subject id is the
empty-term no-op, checked earlier). -/
theorem C5_term_validator_amended :
    (∀ name sig col (term : Term) acc c, term.name = some c →
      ∃ m, parse_type_action name sig col term acc =
        .error ⟨name, sig, col, m⟩) ∧
    (∀ name sig col (term : Term) acc, term.name = none →
      term.oper ≠ TermOper.EcsAnd →
      ∃ m, parse_type_action name sig col term acc =
        .error ⟨name, sig, col, m⟩) ∧
    (∀ name sig col (term : Term) acc, term.name = none →
      term.oper = TermOper.EcsAnd → term.args0 ≠ 0 →
      term.from_kind ≠ FromKind.EcsFromOwned →
      ∃ m, parse_type_action name sig col term acc =
        .error ⟨name, sig, col, m⟩) ∧
    (∀ name sig col (term : Term) acc, term.name = none →
      term.oper = TermOper.EcsAnd → term.args0 ≠ 0 →
      term.from_kind = FromKind.EcsFromOwned → term.args0 ≠ EcsThis →
      ∃ m, parse_type_action name sig col term acc =
        .error ⟨name, sig, col, m⟩) := by
  refine ⟨?_, ?_, ?_, ?_⟩
  · intro name sig col term acc c h1
    exact ⟨"column names not supported in type expression",
      by simp [parse_type_action, h1]⟩
  · intro name sig col term acc h1 h2
    exact ⟨"operator other than AND not supported in type expression",
      by simp [parse_type_action, h1, h2]⟩
  · intro name sig col term acc h1 h2 h3 h4
    exact ⟨"source modifiers not supported for type expressions",
      by simp [parse_type_action, h1, h2, h3, h4]⟩
  · intro name sig col term acc h1 h2 h3 h4 h5
    exact ⟨"subject other than this not supported in type expression",
      by simp [parse_type_action, h1, h2, h3, h4, h5]⟩

/-- Witness for C5 (amended): each rejected shape produces a diagnostic
citing the supplied name, source text and column. -/
theorem C5_term_validator_amended_witness :
    diagLoc (parse_type_action (some ['n']) ['s'] 3
      ⟨some ['c'], .EcsAnd, .EcsFromOwned, 1, 7, 0⟩ []) =
      some (some ['n'], ['s'], 3) ∧
    diagLoc (parse_type_action (some ['n']) ['s'] 3
      ⟨none, .EcsNot, .EcsFromOwned, 1, 7, 0⟩ []) =
      some (some ['n'], ['s'], 3) ∧
    diagLoc (parse_type_action (some ['n']) ['s'] 3
      ⟨none, .EcsAnd, .EcsFromShared, 1, 7, 0⟩ []) =
      some (some ['n'], ['s'], 3) ∧
    diagLoc (parse_type_action (some ['n']) ['s'] 3
      ⟨none, .EcsAnd, .EcsFromOwned, 2, 7, 0⟩ []) =
      some (some ['n'], ['s'], 3) := by
  have h := C5_term_validator_amended
  obtain ⟨m1, h1⟩ := h.1 (some ['n']) ['s'] 3
    ⟨some ['c'], .EcsAnd, .EcsFromOwned, 1, 7, 0⟩ [] ['c'] rfl
  obtain ⟨m2, h2⟩ := h.2.1 (some ['n']) ['s'] 3
    ⟨none, .EcsNot, .EcsFromOwned, 1, 7, 0⟩ [] rfl (by decide)
  obtain ⟨m3, h3⟩ := h.2.2.1 (some ['n']) ['s'] 3
    ⟨none, .EcsAnd, .EcsFromShared, 1, 7, 0⟩ [] rfl rfl (by decide)
    (by decide)
  obtain ⟨m4, h4⟩ := h.2.2.2 (some ['n']) ['s'] 3
    ⟨none, .EcsAnd, .EcsFromOwned, 2, 7, 0⟩ [] rfl rfl (by decide) rfl
    (by decide)
  rw [h1, h2, h3, h4]
  exact ⟨rfl, rfl, rfl, rfl⟩

/-- Counterexample for C10: a term whose resolved subject id is 0 but
which carries a column name is rejected, not accepted: the column-name
check runs before the empty-term check, so "every term whose resolved
subject id is 0 returns success" is false as stated. -/
theorem C10_empty_term_counterexample :
    Term.args0 ⟨some ['c'], .EcsAnd, .EcsFromOwned, 0, 7, 0⟩ = 0 ∧
    parse_type_action none [] 0 ⟨some ['c'], .EcsAnd, .EcsFromOwned, 0, 7, 0⟩
      [] = .error ⟨none, [], 0,
        "column names not supported in type expression"⟩ := by
  exact ⟨rfl, rfl⟩

/-- Claim C10 (amended): a term without a column name and with operator
AND whose resolved subject id is 0 is accepted as a harmless no-op
without appending to the accumulator, even when its source-kind is not
"owned" or its subject is not the implicit "this", because the
empty-term check is performed before the source-kind and subject
rejections. -/
theorem C10_empty_term_amended (name : Option CStr) (sig : CStr)
    (col : Int) (term : Term) (acc : List Nat)
    (h1 : term.name = none) (h2 : term.oper = TermOper.EcsAnd)
    (h3 : term.args0 = 0) :
    parse_type_action name sig col term acc = .ok acc := by
  simp [parse_type_action, h1, h2, h3]

/-- Witness for C10 (amended): an empty term whose source-kind is not
"owned" (and whose subject 0 is not the implicit "this") is accepted and
appends nothing. -/
theorem C10_empty_term_amended_witness :
    Term.from_kind ⟨none, .EcsAnd, .EcsFromEmpty, 0, 7, 0⟩ ≠
      FromKind.EcsFromOwned ∧
    Term.args0 ⟨none, .EcsAnd, .EcsFromEmpty, 0, 7, 0⟩ ≠ EcsThis ∧
    parse_type_action (some ['n']) ['s'] 1
      ⟨none, .EcsAnd, .EcsFromEmpty, 0, 7, 0⟩ [9] = .ok [9] :=
  ⟨by decide, by decide,
    C10_empty_term_amended (some ['n']) ['s'] 1
      ⟨none, .EcsAnd, .EcsFromEmpty, 0, 7, 0⟩ [9] rfl rfl rfl⟩

/- ----------------------------------------------------------------- -/
/- Claim C2                                                           -/
/- ----------------------------------------------------------------- -/

/-- Membership in the collected AND expansions: exactly the stored
normalized members of entities referenced by AND-tagged entries. -/
theorem collectAndMembers_mem (w : World) :
    ∀ (vec aux : List Nat), collectAndMembers w vec = .ok aux →
      ∀ x, x ∈ aux ↔ ∃ e ∈ vec, hasAndRole e = true ∧
        ∃ tr, w.types (pairObject e) = some tr ∧ x ∈ tr.normalized := by
  intro vec
  induction vec with
  | nil =>
    intro aux h x
    cases h
    simp
  | cons e rest ih =>
    intro aux h x
    simp only [collectAndMembers] at h
    by_cases hrole : hasAndRole e = true
    · rw [if_pos hrole] at h
      cases htr : w.types (pairObject e) with
      | none =>
        rw [htr] at h
        cases h
      | some tr =>
        rw [htr] at h
        cases hc : collectAndMembers w rest with
        | error err =>
          rw [hc] at h
          cases h
        | ok tail =>
          rw [hc] at h
          cases h
          rw [List.mem_append, ih tail hc x]
          constructor
          · rintro (hx | ⟨e2, he2, hr2, tr2, htr2, hx⟩)
            · exact ⟨e, List.mem_cons_self e rest, hrole, tr, htr, hx⟩
            · exact ⟨e2, List.mem_cons_of_mem e he2, hr2, tr2, htr2, hx⟩
          · rintro ⟨e2, he2, hr2, tr2, htr2, hx⟩
            rcases List.mem_cons.1 he2 with rfl | he2
            · rw [htr] at htr2
              cases htr2
              exact Or.inl hx
            · exact Or.inr ⟨e2, he2, hr2, tr2, htr2, hx⟩
    · rw [if_neg hrole] at h
      rw [ih aux h x]
      constructor
      · rintro ⟨e2, he2, hr2, tr2, htr2, hx⟩
        exact ⟨e2, List.mem_cons_of_mem e he2, hr2, tr2, htr2, hx⟩
      · rintro ⟨e2, he2, hr2, tr2, htr2, hx⟩
        rcases List.mem_cons.1 he2 with rfl | he2
        · exact absurd hr2 hrole
        · exact ⟨e2, he2, hr2, tr2, htr2, hx⟩

/-- When no entry carries the AND role the expansion loop collects
nothing. -/
theorem collectAndMembers_no_and (w : World) :
    ∀ vec : List Nat, (∀ e ∈ vec, hasAndRole e = false) →
      collectAndMembers w vec = .ok [] := by
  intro vec
  induction vec with
  | nil =>
    intro _
    rfl
  | cons e rest ih =>
    intro h
    have he : ¬ hasAndRole e = true := by
      rw [h e (List.mem_cons_self e rest)]
      decide
    simp only [collectAndMembers, if_neg he]
    exact ih fun e2 he2 => h e2 (List.mem_cons_of_mem e he2)

/-- Claim C2 (amended): for every raw id list, the Type Normalizer
returns `normalized == type` when no entry carries the AND role;
otherwise `normalized` is the canonical table of the raw list's full
member set — the AND-tagged references themselves included — together
with, for each AND-tagged entry, the referenced entity's stored
normalized members (so a type D built from "AND(B), Z" where B stores
normalized {X, Y} has D.normalized == {X, Y, Z, AND(B)} while D.type
keeps the unexpanded {AND(B), Z}). -/
theorem C2_type_normalizer_amended (w : World) (vec : List Nat)
    (tp : EcsType) (hok : type_from_vec w vec = .ok tp) :
    (∀ x, x ∈ tp.type ↔ x ∈ vec) ∧
    (∀ x, x ∈ tp.normalized ↔ (x ∈ vec ∨ ∃ e ∈ vec,
      hasAndRole e = true ∧
      ∃ tr, w.types (pairObject e) = some tr ∧ x ∈ tr.normalized)) ∧
    ((∀ e ∈ vec, hasAndRole e = false) → tp.normalized = tp.type) := by
  simp only [type_from_vec, table_from_vec, ecs_table_find_or_create]
    at hok
  split at hok
  · cases hok
  next aux heq =>
    have hmem := collectAndMembers_mem w vec aux heq
    split at hok
    next h0 =>
      cases hok
      subst h0
      refine ⟨fun x => mem_canonical, ?_, fun _ => rfl⟩
      intro x
      simp only [mem_canonical]
      constructor
      · exact Or.inl
      · rintro (hx | hx)
        · exact hx
        · have := (hmem x).2 hx
          simp at this
    next h0 =>
      cases hok
      refine ⟨fun x => mem_canonical, ?_, ?_⟩
      · intro x
        simp only [ecs_table_traverse_add]
        rw [mem_canonical, List.mem_append, mem_canonical, hmem x]
      · intro hno
        have := (collectAndMembers_no_and w vec hno).symm.trans heq
        injection this with h1
        exact absurd h1.symm h0

/-- An id carrying the AND role referencing entity 10. -/
def andB : Nat := ECS_AND + 10

/-- A world in which entity 10 stores a type whose normalized members
are {3, 4}. -/
def w2x : World :=
  { emptyWorld with
    entities := [10],
    types := updFun emptyWorld.types 10 ⟨[10], [3, 4]⟩ }

/-- Counterexample for C2: with B = 10 storing normalized members
{3, 4} (playing X, Y) and raw list {AND(B), 5} (5 playing Z), the
computed normalized table is {3, 4, 5, AND(B)} — it still contains the
AND-tagged reference — and is not the table {3, 4, 5} = {X, Y, Z} that
the claim requires. -/
theorem C2_type_normalizer_counterexample :
    hasAndRole andB = true ∧
    pairObject andB = 10 ∧
    w2x.types 10 = some ⟨[10], [3, 4]⟩ ∧
    type_from_vec w2x [andB, 5] = .ok ⟨[5, andB], [3, 4, 5, andB]⟩ ∧
    ([3, 4, 5, andB] : List Nat) ≠ canonical [3, 4, 5] := by
  refine ⟨by decide, by decide, rfl, ?_, by decide⟩
  rfl

/-- Witness for C2 (amended): at the counterexample world, the
membership characterization puts both the expanded member 3 and the
AND-tagged reference itself inside the normalized table, and a roleless
list keeps `normalized == type`. -/
theorem C2_type_normalizer_amended_witness :
    ((3 : Nat) ∈ ([3, 4, 5, andB] : List Nat) ↔ (3 ∈ [andB, 5] ∨
      ∃ e ∈ [andB, 5], hasAndRole e = true ∧
        ∃ tr, w2x.types (pairObject e) = some tr ∧ 3 ∈ tr.normalized)) ∧
    (andB ∈ ([3, 4, 5, andB] : List Nat) ↔ (andB ∈ [andB, 5] ∨
      ∃ e ∈ [andB, 5], hasAndRole e = true ∧
        ∃ tr, w2x.types (pairObject e) = some tr ∧
          andB ∈ tr.normalized)) ∧
    EcsType.normalized ⟨[3, 4, 5], [3, 4, 5]⟩ =
      EcsType.type ⟨[3, 4, 5], [3, 4, 5]⟩ := by
  have h1 := C2_type_normalizer_amended w2x [andB, 5]
    ⟨[5, andB], [3, 4, 5, andB]⟩ (by rfl)
  have h2 := C2_type_normalizer_amended w2x [3, 4, 5]
    ⟨[3, 4, 5], [3, 4, 5]⟩ (by rfl)
  exact ⟨h1.2.1 3, h1.2.1 andB, h2.2.2 (by decide)⟩

/- ----------------------------------------------------------------- -/
/- Frame lemmas for the Component Registrar                           -/
/- ----------------------------------------------------------------- -/

/-- Symbol assignment leaves staging flags, counters and component
records untouched. -/
theorem ecs_set_symbol_frame (w : World) (e : Nat) (name : Option CStr) :
    (ecs_set_symbol w e name).is_readonly = w.is_readonly ∧
    (ecs_set_symbol w e name).stageCount = w.stageCount ∧
    (ecs_set_symbol w e name).lastComponentId = w.lastComponentId ∧
    (ecs_set_symbol w e name).components = w.components := by
  cases name <;> exact ⟨rfl, rfl, rfl, rfl⟩

/-- Component-id allocation changes only counters and liveness. -/
theorem ecs_new_component_id_frame (w : World) :
    ((ecs_new_component_id w).2).is_readonly = w.is_readonly ∧
    ((ecs_new_component_id w).2).stageCount = w.stageCount ∧
    ((ecs_new_component_id w).2).components = w.components := by
  rw [ecs_new_component_id]
  split <;> exact ⟨rfl, rfl, rfl⟩

/-- The high-water-mark step changes only the mark. -/
theorem markUpdate_frame (e : Nat) (w : World) :
    (markUpdate e w).is_readonly = w.is_readonly ∧
    (markUpdate e w).stageCount = w.stageCount ∧
    (markUpdate e w).components = w.components := by
  rw [markUpdate]
  split <;> exact ⟨rfl, rfl, rfl⟩

/-- The mark after the high-water-mark step. -/
theorem markUpdate_last (e : Nat) (w : World) :
    (markUpdate e w).lastComponentId =
      if w.lastComponentId < e ∧ e < ECS_HI_COMPONENT_ID then e + 1
      else w.lastComponentId := by
  rw [markUpdate]
  split <;> rfl

/-- A successful identity resolution leaves component records, the
high-water mark and the staging flags untouched, and returns the given
handle when one was given. -/
theorem ecs_lookup_w_id_ok_frame (w : World) (e : Nat)
    (name : Option CStr) (r : Nat) (w2 : World)
    (hok : ecs_lookup_w_id w e name = .ok (r, w2)) :
    w2.components = w.components ∧
    w2.lastComponentId = w.lastComponentId ∧
    w2.is_readonly = w.is_readonly ∧
    w2.stageCount = w.stageCount ∧
    (e ≠ 0 → r = e) := by
  by_cases he : e ≠ 0
  · simp only [ecs_lookup_w_id, if_pos he] at hok
    split at hok
    · split at hok
      · split at hok
        · cases hok
        · cases hok
          refine ⟨?_, ?_, ?_, ?_, fun _ => rfl⟩ <;> (split <;> rfl)
      · cases hok
        refine ⟨?_, ?_, ?_, ?_, fun _ => rfl⟩ <;> (split <;> rfl)
    · cases hok
      refine ⟨?_, ?_, ?_, ?_, fun _ => rfl⟩ <;> (split <;> rfl)
  · rw [Ne, not_not] at he
    subst he
    have h0 : ¬ ((0 : Nat) ≠ 0) := by decide
    simp only [ecs_lookup_w_id, if_neg h0] at hok
    split at hok
    · cases hok
      exact ⟨rfl, rfl, rfl, rfl, fun h => absurd rfl h⟩
    · cases hok
      exact ⟨rfl, rfl, rfl, rfl, fun h => absurd rfl h⟩

/-- A successful registration tail leaves the staging flags untouched,
moves the mark by exactly the high-water-mark step, and returns the
resolved handle. -/
theorem ecs_new_component_finish_frame (w : World) (e : Nat)
    (name : Option CStr) (s a result : Nat) (found : Bool) (r : Nat)
    (w2 : World)
    (hok : ecs_new_component_finish w e name s a result found =
      .ok (r, w2)) :
    w2.is_readonly = w.is_readonly ∧ w2.stageCount = w.stageCount ∧
    w2.lastComponentId =
      (if w.lastComponentId < e ∧ e < ECS_HI_COMPONENT_ID then e + 1
       else w.lastComponentId) ∧
    r = result := by
  cases found <;> cases name <;>
  · simp only [ecs_new_component_finish] at hok
    split at hok
    · cases hok
      exact ⟨(markUpdate_frame e _).1, (markUpdate_frame e _).2.1,
        markUpdate_last e _, rfl⟩
    · split at hok
      · cases hok
      · split at hok
        · cases hok
        · cases hok
          exact ⟨(markUpdate_frame e _).1, (markUpdate_frame e _).2.1,
            markUpdate_last e _, rfl⟩

/-- A successful run of the registrar body preserves the staging flags
and, when an explicit handle was supplied, moves the mark by exactly the
high-water-mark step. -/
theorem ecs_new_component_core_frame (w : World) (e : Nat)
    (name : Option CStr) (s a r : Nat) (w2 : World)
    (hok : ecs_new_component_core w e name s a = .ok (r, w2)) :
    w2.is_readonly = w.is_readonly ∧ w2.stageCount = w.stageCount ∧
    (e ≠ 0 → w2.lastComponentId =
      if w.lastComponentId < e ∧ e < ECS_HI_COMPONENT_ID then e + 1
      else w.lastComponentId) := by
  simp only [ecs_new_component_core] at hok
  split at hok
  · cases hok
  next r0 w1 heq =>
    obtain ⟨-, hlast, hro, hst, hre⟩ :=
      ecs_lookup_w_id_ok_frame w e name r0 w1 heq
    split at hok
    next h0 =>
      obtain ⟨fa, fb, -, -⟩ :=
        ecs_new_component_finish_frame _ e name s a _ true r w2 hok
      have pa := ecs_new_component_id_frame w1
      refine ⟨fa.trans (pa.1.trans hro), fb.trans (pa.2.1.trans hst), ?_⟩
      intro he
      exact absurd ((hre he).symm.trans h0) he
    next h0 =>
      obtain ⟨fa, fb, fc, -⟩ :=
        ecs_new_component_finish_frame w1 e name s a r0 false r w2 hok
      refine ⟨fa.trans hro, fb.trans hst, fun _ => ?_⟩
      rw [fc, hlast]

/-- When the entry world is not read-only, `ecs_new_component` is its
body: the prologue and epilogue do nothing. -/
theorem ecs_new_component_skip_readonly (w : World) (e : Nat)
    (name : Option CStr) (s a : Nat) (hro : w.is_readonly = false) :
    ecs_new_component w e name s a =
      ecs_new_component_core w e name s a := by
  have hb : ¬ (w.is_readonly = true) := by
    rw [hro]
    decide
  have hn : ¬ (w.is_readonly = true ∧ w.stageCount > 1) :=
    fun hx => hb hx.1
  simp only [ecs_new_component]
  rw [if_neg hn, if_neg hb]
  cases hc : ecs_new_component_core w e name s a with
  | error err => rfl
  | ok p =>
    obtain ⟨r2, w3⟩ := p
    simp [if_neg hb]

/-- When the identity resolves to an existing handle, the body is the
registration tail on the resolver result. -/
theorem ecs_new_component_core_resolved (w : World) (e : Nat)
    (name : Option CStr) (s a h : Nat) (w1 : World)
    (hlook : ecs_lookup_w_id w e name = .ok (h, w1)) (hh : h ≠ 0) :
    ecs_new_component_core w e name s a =
      ecs_new_component_finish w1 e name s a h false := by
  simp only [ecs_new_component_core, hlook]
  rw [if_neg hh]

/-- The registration tail on an already-stored component record is the
size/alignment consistency check. -/
theorem ecs_new_component_finish_hit (w : World) (e : Nat)
    (name : Option CStr) (s a result : Nat) (ptr : EcsComponent)
    (hc : w.components result = some ptr) :
    ecs_new_component_finish w e name s a result false =
      (if ptr.size ≠ s then .error (.invalidComponentSize name)
       else if ptr.alignment ≠ a then
         .error (.invalidComponentSize name)
       else .ok (result, markUpdate e w)) := by
  simp only [ecs_new_component_finish, Bool.false_eq_true, if_false, hc]

/- ----------------------------------------------------------------- -/
/- Claim C8                                                           -/
/- ----------------------------------------------------------------- -/

/-- A read-only world with zero active stages. -/
def w8z : World :=
  { emptyWorld with is_readonly := true, stageCount := 0 }

/-- Counterexample for C8: the claim requires exactly one active stage
in read-only mode (otherwise fatal), but a read-only world with zero
active stages passes the `<= 1` assertion and the call succeeds. -/
theorem C8_readonly_counterexample :
    w8z.is_readonly = true ∧ w8z.stageCount ≠ 1 ∧
    resultHandle (ecs_new_component w8z 0 (some ['C']) 4 4) =
      some 1 := by
  refine ⟨rfl, by decide, ?_⟩
  rfl

/-- Claim C8 (amended): if the world is read-only when
`ecs_new_component` is called, at most one active execution stage is
allowed (more than one is fatal), the read-only flag is cleared for the
duration of the call (the body runs on the flag-cleared world) and on
every return the flag is restored to its prior value; if the world was
not read-only on entry the flag is never modified and the body runs on
the world unchanged. -/
theorem C8_readonly_suspension :
    (∀ w e name s a, w.is_readonly = true → w.stageCount > 1 →
      ecs_new_component w e name s a = .error .invalidWhileIterating) ∧
    (∀ w e name s a, w.is_readonly = true → w.stageCount ≤ 1 →
      ecs_new_component w e name s a =
        match ecs_new_component_core { w with is_readonly := false }
            e name s a with
        | .error err => .error err
        | .ok (r, w2) => .ok (r, { w2 with is_readonly := true })) ∧
    (∀ w e name s a r w2,
      ecs_new_component w e name s a = .ok (r, w2) →
      w2.is_readonly = w.is_readonly) ∧
    (∀ w e name s a, w.is_readonly = false →
      ecs_new_component w e name s a =
        ecs_new_component_core w e name s a) := by
  refine ⟨?_, ?_, ?_, ?_⟩
  · intro w e name s a hro hst
    simp only [ecs_new_component]
    rw [if_pos (And.intro hro hst)]
  · intro w e name s a hro hst
    have hn : ¬ (w.is_readonly = true ∧ w.stageCount > 1) := by
      rintro ⟨-, h⟩
      omega
    simp only [ecs_new_component]
    rw [if_neg hn, if_pos hro]
    cases hc : ecs_new_component_core { w with is_readonly := false }
        e name s a with
    | error err => rfl
    | ok p =>
      obtain ⟨r2, w3⟩ := p
      simp [hro]
  · intro w e name s a r w2 hok
    simp only [ecs_new_component] at hok
    split at hok
    · cases hok
    split at hok
    · cases hok
    · rename_i r3 w3 heq
      have hm := (ecs_new_component_core_frame _ e name s a r3 w3
        heq).1
      cases hok
      by_cases hb : w.is_readonly = true
      · rw [if_pos hb, hb]
      · rw [if_neg hb]
        rw [if_neg hb] at hm
        exact hm
  · intro w e name s a hro
    exact ecs_new_component_skip_readonly w e name s a hro

/-- A read-only world with two active stages. -/
def w8b : World :=
  { emptyWorld with is_readonly := true, stageCount := 2 }

/-- A read-only world with a single active stage. -/
def w8a : World :=
  { emptyWorld with is_readonly := true, stageCount := 1 }

/-- Witness for C8 (amended): two stages abort, a single read-only stage
runs with the flag restored on return, and a non-read-only world runs
the body unchanged. -/
theorem C8_readonly_suspension_witness :
    ecs_new_component w8b 0 (some ['C']) 4 4 =
      .error .invalidWhileIterating ∧
    (worldAfter (ecs_new_component w8a 0 (some ['C']) 4 4)
      emptyWorld).is_readonly = true ∧
    ecs_new_component emptyWorld 0 (some ['C']) 4 4 =
      ecs_new_component_core emptyWorld 0 (some ['C']) 4 4 := by
  have h := C8_readonly_suspension
  refine ⟨h.1 w8b 0 (some ['C']) 4 4 rfl (by decide), ?_,
    h.2.2.2 emptyWorld 0 (some ['C']) 4 4 rfl⟩
  exact (h.2.2.1 w8a 0 (some ['C']) 4 4 1
    (worldAfter (ecs_new_component w8a 0 (some ['C']) 4 4) emptyWorld)
    (by rfl)).trans rfl

/- ----------------------------------------------------------------- -/
/- Claim C9                                                           -/
/- ----------------------------------------------------------------- -/

/-- A world whose component-id high-water mark is 7. -/
def w9cex : World := { emptyWorld with lastComponentId := 7 }

/-- Counterexample for C9: supplying `e` equal to the current mark (7,
inside the reserved range) leaves the mark at 7, while the claim
(`e` greater than or equal to the mark) requires advancing it to 8. -/
theorem C9_mark_advance_counterexample :
    w9cex.lastComponentId = 7 ∧ (7 : Nat) < ECS_HI_COMPONENT_ID ∧
    lastAfter (ecs_new_component w9cex 7 none 4 4) = some 7 := by
  refine ⟨rfl, by decide, ?_⟩
  rfl

/-- Claim C9 (amended): in `ecs_new_component`, whenever the explicitly
supplied parameter `e` lies within the reserved low-id range and is
strictly greater than the current component-id high-water mark, the mark
is advanced to `e + 1`; in every other case (including `e` equal to the
mark) the mark is left unchanged. -/
theorem C9_mark_advance (w : World) (e : Nat) (name : Option CStr)
    (s a r : Nat) (w2 : World) (he : e ≠ 0)
    (hok : ecs_new_component w e name s a = .ok (r, w2)) :
    w2.lastComponentId =
      if w.lastComponentId < e ∧ e < ECS_HI_COMPONENT_ID then e + 1
      else w.lastComponentId := by
  simp only [ecs_new_component] at hok
  split at hok
  · cases hok
  split at hok
  · cases hok
  · rename_i r3 w3 heq
    have hm := (ecs_new_component_core_frame _ e name s a r3 w3
      heq).2.2 he
    cases hok
    by_cases hb : w.is_readonly = true
    · rw [if_pos hb]
      rw [if_pos hb] at hm
      simpa using hm
    · rw [if_neg hb]
      rw [if_neg hb] at hm
      exact hm

/-- Witness for C9 (amended): registering with explicit id 8 while the
mark is 7 advances the mark to 9; the counterexample world shows the
unchanged case. -/
theorem C9_mark_advance_witness :
    (worldAfter (ecs_new_component w9cex 8 none 4 4)
      emptyWorld).lastComponentId = 9 ∧
    (worldAfter (ecs_new_component w9cex 7 none 4 4)
      emptyWorld).lastComponentId = 7 := by
  have h1 := C9_mark_advance w9cex 8 none 4 4 8
    (worldAfter (ecs_new_component w9cex 8 none 4 4) emptyWorld)
    (by decide) (by rfl)
  have h2 := C9_mark_advance w9cex 7 none 4 4 7
    (worldAfter (ecs_new_component w9cex 7 none 4 4) emptyWorld)
    (by decide) (by rfl)
  rw [h1, h2]
  exact ⟨by decide, by decide⟩

/- ----------------------------------------------------------------- -/
/- Claim C3                                                           -/
/- ----------------------------------------------------------------- -/

/-- A world whose configured naming prefix is "Ecs" and with nothing
registered. -/
def w3cex : World :=
  { emptyWorld with namePrefixStr := some "Ecs".toList }

/-- The world after registering component "EcsFoo" once in `w3cex`. -/
def w3mid : World :=
  worldAfter (ecs_new_component w3cex 0 (some "EcsFoo".toList) 8 4) w3cex

/-- Counterexample for C3: with a configured prefix "Ecs", registering
`(name="EcsFoo", size=8, alignment=4)` twice does not return the same
handle: the first call stores the canonicalized display name "Foo", so
the second lookup of "EcsFoo" misses and a second, distinct component
handle is allocated. -/
theorem C3_component_idempotent_counterexample :
    resultHandle (ecs_new_component w3cex 0 (some "EcsFoo".toList) 8 4) =
      some 1 ∧
    resultHandle (ecs_new_component w3mid 0 (some "EcsFoo".toList) 8 4) =
      some 2 ∧
    (1 : Nat) ≠ 2 := by
  refine ⟨rfl, rfl, by decide⟩

/-- Claim C3 (amended): for a component already registered under a given
name or handle, provided the Identifier Resolver actually resolves that
identity to the stored handle (which requires the supplied name to match
the stored display name — with a configured prefix, a prefixed name is
stored canonicalized and no longer resolves), a second
`ecs_new_component` call with identical size and alignment returns the
same handle with the stored `(size, alignment)` unchanged, and a call
whose size or alignment differs aborts citing the name. -/
theorem C3_component_idempotent (w : World) (e h s a : Nat) (n : CStr)
    (hro : w.is_readonly = false)
    (hlook : ecs_lookup_w_id w e (some n) = .ok (h, w))
    (hh : h ≠ 0)
    (hc : w.components h = some ⟨s, a⟩) :
    (ecs_new_component w e (some n) s a = .ok (h, markUpdate e w) ∧
      (markUpdate e w).components h = some ⟨s, a⟩) ∧
    (∀ s2 a2, s2 ≠ s ∨ a2 ≠ a →
      ecs_new_component w e (some n) s2 a2 =
        .error (.invalidComponentSize (some n))) := by
  constructor
  · constructor
    · rw [ecs_new_component_skip_readonly w e (some n) s a hro,
        ecs_new_component_core_resolved w e (some n) s a h w hlook hh,
        ecs_new_component_finish_hit w e (some n) s a h ⟨s, a⟩ hc]
      dsimp only
      rw [if_neg (fun hx : ¬ s = s => hx rfl),
        if_neg (fun hx : ¬ a = a => hx rfl)]
    · rw [(markUpdate_frame e w).2.2]
      exact hc
  · intro s2 a2 hd
    rw [ecs_new_component_skip_readonly w e (some n) s2 a2 hro,
      ecs_new_component_core_resolved w e (some n) s2 a2 h w hlook hh,
      ecs_new_component_finish_hit w e (some n) s2 a2 h ⟨s, a⟩ hc]
    dsimp only
    by_cases hs : s ≠ s2
    · rw [if_pos hs]
    · rw [if_neg hs]
      rcases hd with hd | hd
      · exact absurd (not_ne_iff.1 hs).symm hd
      · rw [if_pos (Ne.symm hd)]

/-- A world in which component 1 is registered as "Position" with
size 8 and alignment 4, and the mark is past it. -/
def wReg : World :=
  { emptyWorld with
    entities := [1],
    names := updFun emptyWorld.names 1
      ⟨"Position".toList, some "Position".toList⟩,
    components := updFun emptyWorld.components 1 ⟨8, 4⟩,
    lastComponentId := 2 }

/-- Witness for C3 (amended): re-registering "Position" with (8, 4)
returns handle 1 with the record unchanged; re-registering with (12, 4)
aborts citing "Position". -/
theorem C3_component_idempotent_witness :
    ecs_new_component wReg 0 (some "Position".toList) 8 4 =
      .ok (1, markUpdate 0 wReg) ∧
    (markUpdate 0 wReg).components 1 = some ⟨8, 4⟩ ∧
    ecs_new_component wReg 0 (some "Position".toList) 12 4 =
      .error (.invalidComponentSize (some "Position".toList)) := by
  have h := C3_component_idempotent wReg 0 1 8 4 "Position".toList rfl
    (by rfl) (by decide) (by rfl)
  exact ⟨h.1.1, h.1.2, h.2 12 4 (Or.inl (by decide))⟩

/- ----------------------------------------------------------------- -/
/- Claim C4                                                           -/
/- ----------------------------------------------------------------- -/

/-- Claim C4: for a type entity that already has stored type metadata
(the Identifier Resolver resolves the identity to its handle),
`ecs_new_type` with an expression whose computed `(type, normalized)`
pair matches the stored pair in both fields returns the same handle with
the metadata unchanged; if either field differs, the call aborts with
"already defined" citing the name. -/
theorem C4_type_idempotent (w : World) (e hdl : Nat)
    (name : Option CStr) (expr : Option (List Term)) (t tp : EcsType)
    (hlook : ecs_lookup_w_id w e name = .ok (hdl, w))
    (hh : hdl ≠ 0)
    (ht : w.types hdl = some t)
    (hp : type_from_expr w name expr = .ok tp) :
    (tp.type = t.type → tp.normalized = t.normalized →
      ∃ w2, ecs_new_type w e name expr = .ok (hdl, w2) ∧
        w2.types hdl = some t) ∧
    ((tp.type ≠ t.type ∨ tp.normalized ≠ t.normalized) →
      ecs_new_type w e name expr = .error (.alreadyDefined name)) := by
  have hstep : ecs_new_type w e name expr =
      (if t.type ≠ tp.type then .error (.alreadyDefined name)
       else if t.normalized ≠ tp.normalized then
         .error (.alreadyDefined name)
       else .ok (hdl,
         { w with typeHandles := updFun w.typeHandles tp.type hdl })) := by
    simp only [ecs_new_type, hlook]
    rw [if_neg hh]
    simp only [hp, ht]
  constructor
  · intro h1 h2
    rw [hstep, if_neg (fun hx => hx h1.symm),
      if_neg (fun hx => hx h2.symm)]
    exact ⟨_, rfl, ht⟩
  · intro hd
    rw [hstep]
    by_cases hx : t.type ≠ tp.type
    · rw [if_pos hx]
    · rw [if_neg hx]
      rcases hd with hd | hd
      · exact absurd (not_ne_iff.1 hx).symm hd
      · rw [if_pos (Ne.symm hd)]

/-- A structured term resolving to id 7 with no role. -/
def tZ : Term := ⟨none, .EcsAnd, .EcsFromOwned, EcsThis, 7, 0⟩

/-- A structured term resolving to id 9 with no role. -/
def tY : Term := ⟨none, .EcsAnd, .EcsFromOwned, EcsThis, 9, 0⟩

/-- A world in which type entity 5 is registered as "Movable" with
stored pair ({7}, {7}). -/
def w4x : World :=
  { emptyWorld with
    entities := [5],
    names := updFun emptyWorld.names 5
      ⟨"Movable".toList, some "Movable".toList⟩,
    types := updFun emptyWorld.types 5 ⟨[7], [7]⟩ }

/-- Witness for C4: re-registering "Movable" with the same expression
returns handle 5 with the stored pair unchanged; re-registering with an
expression computing a different pair aborts with "already defined"
citing "Movable". -/
theorem C4_type_idempotent_witness :
    resultHandle (ecs_new_type w4x 0 (some "Movable".toList)
      (some [tZ])) = some 5 ∧
    (worldAfter (ecs_new_type w4x 0 (some "Movable".toList)
      (some [tZ])) emptyWorld).types 5 = some ⟨[7], [7]⟩ ∧
    ecs_new_type w4x 0 (some "Movable".toList) (some [tY]) =
      .error (.alreadyDefined (some "Movable".toList)) := by
  have h1 := C4_type_idempotent w4x 0 5 (some "Movable".toList)
    (some [tZ]) ⟨[7], [7]⟩ ⟨[7], [7]⟩ (by rfl) (by decide) (by rfl)
    (by rfl)
  have h2 := C4_type_idempotent w4x 0 5 (some "Movable".toList)
    (some [tY]) ⟨[7], [7]⟩ ⟨[9], [9]⟩ (by rfl) (by decide) (by rfl)
    (by rfl)
  obtain ⟨w2, heq, hty⟩ := h1.1 rfl rfl
  refine ⟨?_, ?_, h2.2 (Or.inl (by decide))⟩
  · rw [heq]
    rfl
  · have hw : worldAfter (ecs_new_type w4x 0 (some "Movable".toList)
        (some [tZ])) emptyWorld = w2 := by
      rw [heq]
      rfl
    rw [hw, hty]
